import Mathlib

/-!
Verification of the strawberry generic-type-resolution core and the
`dict_to_type` utility.

The repository's sources under verification are:
- `src/tests/schema/test_generics.py` and `src/tests/federation/test_schema.py`
  (tests pinning the behaviour of the generic resolution machinery);
- `src/strawberry/utils/dict_to_type.py` (embedded directly below).

The generic-resolution implementation itself (Type Descriptor Model, Name
Synthesizer, Generic Resolver, Type Registry, Union/Interface Classifier) is
not present in the source tree; only its tests are.  Those components are
therefore modelled from the specification (spec.md §3–§7), and each such
definition carries a doc comment saying so.
-/

namespace Strawberry

/-- Modelled from the spec: the GraphQL scalar kinds appearing as concrete
type arguments (§4.2 scalar display-name mapping). -/
inductive Scalar where
  | int
  | str
  | float
  | bool
  | id
  deriving DecidableEq, Repr

/-- Modelled from the spec (§3 FieldDescriptor.declared_type): a recursive
type expression — scalar, list-of, optional-of, reference to a declared
descriptor by name, placeholder (by position), reference to a generic
descriptor with its own argument list, or union of alternatives. -/
inductive TypeExpr where
  | scalar : Scalar → TypeExpr
  | listOf : TypeExpr → TypeExpr
  | optionalOf : TypeExpr → TypeExpr
  | ref : String → TypeExpr
  | placeholder : Nat → TypeExpr
  | genericRef : String → List TypeExpr → TypeExpr
  | unionOf : List TypeExpr → TypeExpr

mutual

/-- Structural boolean equality on type expressions (the registry's keys are
compared structurally, spec §3). -/
def teBeq : TypeExpr → TypeExpr → Bool
  | .scalar a, .scalar b => a == b
  | .listOf a, .listOf b => teBeq a b
  | .optionalOf a, .optionalOf b => teBeq a b
  | .ref a, .ref b => a == b
  | .placeholder a, .placeholder b => a == b
  | .genericRef n as, .genericRef m bs => n == m && teBeqList as bs
  | .unionOf as, .unionOf bs => teBeqList as bs
  | _, _ => false

/-- Structural boolean equality on lists of type expressions. -/
def teBeqList : List TypeExpr → List TypeExpr → Bool
  | [], [] => true
  | a :: as, b :: bs => teBeq a b && teBeqList as bs
  | _, _ => false

end

mutual

theorem teBeq_refl : ∀ a, teBeq a a = true
  | .scalar _ => by simp [teBeq]
  | .listOf t => by simp [teBeq, teBeq_refl t]
  | .optionalOf t => by simp [teBeq, teBeq_refl t]
  | .ref _ => by simp [teBeq]
  | .placeholder _ => by simp [teBeq]
  | .genericRef _ as => by simp [teBeq, teBeqList_refl as]
  | .unionOf as => by simp [teBeq, teBeqList_refl as]

theorem teBeqList_refl : ∀ as, teBeqList as as = true
  | [] => by simp [teBeqList]
  | a :: as => by simp [teBeqList, teBeq_refl a, teBeqList_refl as]

end

mutual

theorem teBeq_sound : ∀ a b, teBeq a b = true → a = b
  | .scalar _, b => by cases b <;> simp [teBeq]
  | .listOf t, b => by
    cases b <;> simp [teBeq]
    exact fun h => teBeq_sound t _ h
  | .optionalOf t, b => by
    cases b <;> simp [teBeq]
    exact fun h => teBeq_sound t _ h
  | .ref _, b => by cases b <;> simp [teBeq]
  | .placeholder _, b => by cases b <;> simp [teBeq]
  | .genericRef n as, b => by
    cases b <;> simp [teBeq]
    exact fun h1 h2 => ⟨h1, teBeqList_sound as _ h2⟩
  | .unionOf as, b => by
    cases b <;> simp [teBeq]
    exact fun h => teBeqList_sound as _ h

theorem teBeqList_sound : ∀ as bs, teBeqList as bs = true → as = bs
  | [], bs => by cases bs <;> simp [teBeqList]
  | a :: as, bs => by
    cases bs with
    | nil => simp [teBeqList]
    | cons b bs =>
      simp only [teBeqList, Bool.and_eq_true, List.cons.injEq]
      exact fun h => ⟨teBeq_sound a b h.1, teBeqList_sound as bs h.2⟩

end

instance : DecidableEq TypeExpr := fun a b =>
  if h : teBeq a b = true then .isTrue (teBeq_sound a b h)
  else .isFalse (fun he => h (he ▸ teBeq_refl a))

/-- Modelled from the spec (§3 TypeDescriptor): name, ordered fields, and the
number of type parameters (placeholders are positional); `numParams = 0`
means the descriptor is not generic. -/
structure TypeDescriptor where
  name : String
  numParams : Nat
  fields : List (String × TypeExpr)
  deriving DecidableEq

/-- Modelled from the spec (§3 ConcreteTypeDescriptor): the result of
substitution — a synthesized name and fully concrete fields. -/
structure ConcreteTypeDescriptor where
  name : String
  fields : List (String × TypeExpr)
  deriving DecidableEq

/-- Modelled from the spec (§3 ConcreteInstantiation key, §4.4): one registry
entry — the originating generic's identity, the structural argument tuple,
and the cached concrete descriptor. -/
structure RegEntry where
  genericName : String
  args : List TypeExpr
  descr : ConcreteTypeDescriptor
  deriving DecidableEq

/-- Modelled from the spec (§4.4): the Type Registry's cache of concrete
instantiations, keyed structurally by (generic identity, argument tuple). -/
abbrev Registry := List RegEntry

/-- Modelled from the spec (§6): the declaration environment — the sequence
of declared type descriptors, generic ones included. -/
abbrev Env := List TypeDescriptor

/-- Modelled from the spec (§7): the error taxonomy of the resolution core. -/
inductive Err where
  | unboundTypeParameter : Nat → Err
  | ambiguousUnionMember : List String → Err
  | nameCollision : String → Err
  | noMatchingUnionMember : String → List TypeExpr → Err
  | unknownType : String → Err
  | outOfFuel : Err
  | typeError : Err
  deriving DecidableEq

/-- Modelled from the spec (§4.2): canonical GraphQL display name of a
scalar argument (integer → "Int", string → "Str", …). -/
def scalarName : Scalar → String
  | .int => "Int"
  | .str => "Str"
  | .float => "Float"
  | .bool => "Bool"
  | .id => "ID"

/-- Modelled from the spec (§4.2): the derived display name of a concrete
type argument — scalars map to their canonical scalar name, a reference
contributes the referenced type's (already capitalized) name, and
list/optional wrappers are transparent. -/
def displayName : TypeExpr → String
  | .scalar s => scalarName s
  | .listOf t => displayName t
  | .optionalOf t => displayName t
  | .ref n => n
  | .placeholder _ => ""
  | .genericRef n _ => n
  | .unionOf _ => ""

/-- Modelled from the spec (§4.2 Name Synthesizer): concatenate, in declared
type-parameter order, each concrete argument's display name, followed by the
generic type's own name. -/
def synthesizeName (args : List TypeExpr) (genericName : String) : String :=
  String.join (args.map displayName) ++ genericName

/-- Modelled from the spec (§4.4): structural lookup in the registry by
(generic identity, argument tuple). -/
def lookupReg : Registry → String → List TypeExpr → Option ConcreteTypeDescriptor
  | [], _, _ => none
  | e :: rest, g, as =>
    if e.genericName = g ∧ e.args = as then some e.descr else lookupReg rest g as

/-- Modelled from the spec (§6): lookup of a declared descriptor by name. -/
def lookupEnv : Env → String → Option TypeDescriptor
  | [], _ => none
  | d :: rest, n => if d.name = n then some d else lookupEnv rest n

mutual

/-- Modelled from the spec (§4.3 Generic Resolver): resolve a type expression
against a positional binding of placeholders to concrete type expressions;
scalars and non-generic references are unchanged, wrappers are preserved,
placeholders are substituted (or `UnboundTypeParameter`), a nested generic
reference first resolves its own arguments then delegates to the registry,
and union alternatives are resolved independently with an
`AmbiguousUnionMember` check on colliding names.  Fuel bounds recursion. -/
def resolveExpr : Nat → Env → Registry → List TypeExpr → TypeExpr →
    Except Err (TypeExpr × Registry)
  | 0, _, _, _, _ => .error .outOfFuel
  | fuel + 1, env, reg, binding, e =>
    match e with
    | .scalar s => .ok (.scalar s, reg)
    | .placeholder i =>
      match binding.get? i with
      | some t => .ok (t, reg)
      | none => .error (.unboundTypeParameter i)
    | .listOf t =>
      match resolveExpr fuel env reg binding t with
      | .error err => .error err
      | .ok (t', reg') => .ok (.listOf t', reg')
    | .optionalOf t =>
      match resolveExpr fuel env reg binding t with
      | .error err => .error err
      | .ok (t', reg') => .ok (.optionalOf t', reg')
    | .ref n => .ok (.ref n, reg)
    | .genericRef n as =>
      match resolveList fuel env reg binding as with
      | .error err => .error err
      | .ok (as', reg') =>
        match lookupEnv env n with
        | none => .error (.unknownType n)
        | some g =>
          match getOrCreate fuel env reg' g as' with
          | .error err => .error err
          | .ok (d, reg'') => .ok (.ref d.name, reg'')
    | .unionOf alts =>
      match resolveList fuel env reg binding alts with
      | .error err => .error err
      | .ok (alts', reg') =>
        if (alts'.map displayName).Nodup then .ok (.unionOf alts', reg')
        else .error (.ambiguousUnionMember (alts'.map displayName))

/-- Modelled from the spec (§4.3): resolve a list of type expressions left to
right, threading the registry. -/
def resolveList : Nat → Env → Registry → List TypeExpr → List TypeExpr →
    Except Err (List TypeExpr × Registry)
  | 0, _, _, _, _ => .error .outOfFuel
  | _ + 1, _, reg, _, [] => .ok ([], reg)
  | fuel + 1, env, reg, binding, t :: ts =>
    match resolveExpr fuel env reg binding t with
    | .error err => .error err
    | .ok (t', reg') =>
      match resolveList fuel env reg' binding ts with
      | .error err => .error err
      | .ok (ts', reg'') => .ok (t' :: ts', reg'')

/-- Modelled from the spec (§4.4): resolve every field of a generic
descriptor against the binding, threading the registry. -/
def resolveFields : Nat → Env → Registry → List TypeExpr →
    List (String × TypeExpr) → Except Err (List (String × TypeExpr) × Registry)
  | 0, _, _, _, _ => .error .outOfFuel
  | _ + 1, _, reg, _, [] => .ok ([], reg)
  | fuel + 1, env, reg, binding, (n, t) :: fs =>
    match resolveExpr fuel env reg binding t with
    | .error err => .error err
    | .ok (t', reg') =>
      match resolveFields fuel env reg' binding fs with
      | .error err => .error err
      | .ok (fs', reg'') => .ok ((n, t') :: fs', reg'')

/-- Modelled from the spec (§4.4 Type Registry): `get_or_create` — look up by
structural key and return the cached instance on a hit; on a miss synthesize
the name, resolve every field against the binding
placeholder_i ↦ args\[i\], detect a name collision with any cached
descriptor under a different key (schema-construction error, §4.2
tie-break), insert, and return. -/
def getOrCreate : Nat → Env → Registry → TypeDescriptor → List TypeExpr →
    Except Err (ConcreteTypeDescriptor × Registry)
  | 0, _, _, _, _ => .error .outOfFuel
  | fuel + 1, env, reg, g, as =>
    match lookupReg reg g.name as with
    | some d => .ok (d, reg)
    | none =>
      match resolveFields fuel env reg as g.fields with
      | .error err => .error err
      | .ok (fs', reg') =>
        if ∀ e ∈ reg', e.descr.name = synthesizeName as g.name →
            e.genericName = g.name ∧ e.args = as
        then .ok (⟨synthesizeName as g.name, fs'⟩,
                  ⟨g.name, as, ⟨synthesizeName as g.name, fs'⟩⟩ :: reg')
        else .error (.nameCollision (synthesizeName as g.name))

end

/-- Modelled from the spec (§6 runtime value contract): a runtime value
returned by a field resolver.  A value originating from a generic
declaration (`objV`) carries the originating generic's identity and the
concrete type arguments used to construct it; a non-generic object value
(`plainV`) carries its declared type name. -/
inductive RVal where
  | noneV : RVal
  | scalarV : RVal
  | listV : List RVal → RVal
  | plainV : String → List (String × RVal) → RVal
  | objV : String → List TypeExpr → List (String × RVal) → RVal

/-- Modelled from the spec (§4.5): the concrete type name a runtime value
corresponds to — a plain object names its declared type, a generic-origin
value is matched by its originating generic identity plus the concrete type
arguments recorded at construction time, via the registry. -/
def typenameOf (reg : Registry) : RVal → Except Err String
  | .plainV n _ => .ok n
  | .objV g as _ =>
    match lookupReg reg g as with
    | some d => .ok d.name
    | none => .error (.noMatchingUnionMember g as)
  | _ => .error .typeError

/-- Modelled from the spec (§4.5 Union/Interface Classifier): given a runtime
value and the possible concrete descriptors' names, determine which
descriptor matches; fails with `NoMatchingUnionMember` when no candidate
matches. -/
def classify (reg : Registry) (candidates : List String) : RVal → Except Err String
  | .plainV n _ =>
    if n ∈ candidates then .ok n
    else .error (.noMatchingUnionMember n [])
  | .objV g as _ =>
    match lookupReg reg g as with
    | some d =>
      if d.name ∈ candidates then .ok d.name
      else .error (.noMatchingUnionMember g as)
    | none => .error (.noMatchingUnionMember g as)
  | _ => .error .typeError

/-- Modelled from the spec (§6): the serialized output shape handed to the
execution engine — only the parts the classifier determines (the concrete
`__typename` of object values, list/null structure). -/
inductive Out where
  | scalarOut : Out
  | nullOut : Out
  | objOut : String → Out
  | listOut : List Out → Out

mutual

/-- Structural boolean equality on outputs. -/
def outBeq : Out → Out → Bool
  | .scalarOut, .scalarOut => true
  | .nullOut, .nullOut => true
  | .objOut a, .objOut b => a == b
  | .listOut as, .listOut bs => outBeqList as bs
  | _, _ => false

/-- Structural boolean equality on lists of outputs. -/
def outBeqList : List Out → List Out → Bool
  | [], [] => true
  | a :: as, b :: bs => outBeq a b && outBeqList as bs
  | _, _ => false

end

mutual

theorem outBeq_refl : ∀ a, outBeq a a = true
  | .scalarOut => by simp [outBeq]
  | .nullOut => by simp [outBeq]
  | .objOut _ => by simp [outBeq]
  | .listOut as => by simp [outBeq, outBeqList_refl as]

theorem outBeqList_refl : ∀ as, outBeqList as as = true
  | [] => by simp [outBeqList]
  | a :: as => by simp [outBeqList, outBeq_refl a, outBeqList_refl as]

end

mutual

theorem outBeq_sound : ∀ a b, outBeq a b = true → a = b
  | .scalarOut, b => by cases b <;> simp [outBeq]
  | .nullOut, b => by cases b <;> simp [outBeq]
  | .objOut _, b => by cases b <;> simp [outBeq]
  | .listOut as, b => by
    cases b <;> simp [outBeq]
    exact fun h => outBeqList_sound as _ h

theorem outBeqList_sound : ∀ as bs, outBeqList as bs = true → as = bs
  | [], bs => by cases bs <;> simp [outBeqList]
  | a :: as, bs => by
    cases bs with
    | nil => simp [outBeqList]
    | cons b bs =>
      simp only [outBeqList, Bool.and_eq_true, List.cons.injEq]
      exact fun h => ⟨outBeq_sound a b h.1, outBeqList_sound as bs h.2⟩

end

instance : DecidableEq Out := fun a b =>
  if h : outBeq a b = true then .isTrue (outBeq_sound a b h)
  else .isFalse (fun he => h (he ▸ outBeq_refl a))

mutual

/-- Modelled from the spec (§4.5, §6): serialization of a runtime value at a
fully resolved type — scalars pass through, `optional` admits null, a list
serializes its elements at the element type, an object reference reports the
value's concrete type name, and a union classifies the value against the
union's possible type names.  Fuel bounds the recursion. -/
def serialize : Nat → Registry → TypeExpr → RVal → Except Err Out
  | 0, _, _, _ => .error .outOfFuel
  | fuel + 1, reg, t, v =>
    match t with
    | .scalar _ => .ok .scalarOut
    | .optionalOf t =>
      match v with
      | .noneV => .ok .nullOut
      | _ => serialize fuel reg t v
    | .listOf t =>
      match v with
      | .listV es =>
        match serializeMany fuel reg t es with
        | .error err => .error err
        | .ok os => .ok (.listOut os)
      | _ => .error .typeError
    | .ref _ =>
      match typenameOf reg v with
      | .error err => .error err
      | .ok n => .ok (.objOut n)
    | .unionOf alts =>
      match classify reg (alts.map displayName) v with
      | .error err => .error err
      | .ok n => .ok (.objOut n)
    | .placeholder i => .error (.unboundTypeParameter i)
    | .genericRef _ _ => .error .typeError

/-- Modelled from the spec (§4.5, §6): serialization of a list of runtime
values, each at the same element type. -/
def serializeMany : Nat → Registry → TypeExpr → List RVal → Except Err (List Out)
  | 0, _, _, _ => .error .outOfFuel
  | _ + 1, _, _, [] => .ok []
  | fuel + 1, reg, t, v :: vs =>
    match serialize fuel reg t v with
    | .error err => .error err
    | .ok o =>
      match serializeMany fuel reg t vs with
      | .error err => .error err
      | .ok os => .ok (o :: os)

end

/-- Modelled from the spec (§7 propagation policy): per-query execution of a
list of fields, each given by its resolved type and the resolver's runtime
value; per-field errors are isolated to the offending field. -/
def executeFields (fuel : Nat) (reg : Registry) (flds : List (TypeExpr × RVal)) :
    List (Except Err Out) :=
  flds.map (fun p => serialize fuel reg p.1 p.2)

/-! ## The `dict_to_type` utility (src/strawberry/utils/dict_to_type.py) -/

/-- A Python value as handled by `dict_to_type`: `None`, numbers, strings,
booleans, lists, dicts, constructed dataclass instances, and enum
instances (an enum instance records its enum class and underlying value). -/
inductive PyVal where
  | pynone : PyVal
  | pyint : Int → PyVal
  | pystr : String → PyVal
  | pybool : Bool → PyVal
  | pylist : List PyVal → PyVal
  | pydict : List (String × PyVal) → PyVal
  | pyobj : String → List (String × PyVal) → PyVal
  | pyenum : String → PyVal → PyVal

mutual

/-- Boolean structural equality on Python values (used for the enum
lookup-by-value `field.type(kwargs[name])`). -/
def pvBeq : PyVal → PyVal → Bool
  | .pynone, .pynone => true
  | .pyint a, .pyint b => a == b
  | .pystr a, .pystr b => a == b
  | .pybool a, .pybool b => a == b
  | .pylist as, .pylist bs => pvBeqList as bs
  | .pydict as, .pydict bs => pvBeqFields as bs
  | .pyobj n as, .pyobj m bs => n == m && pvBeqFields as bs
  | .pyenum n a, .pyenum m b => n == m && pvBeq a b
  | _, _ => false

/-- Boolean structural equality on lists of Python values. -/
def pvBeqList : List PyVal → List PyVal → Bool
  | [], [] => true
  | a :: as, b :: bs => pvBeq a b && pvBeqList as bs
  | _, _ => false

/-- Boolean structural equality on string-keyed association lists of Python
values. -/
def pvBeqFields : List (String × PyVal) → List (String × PyVal) → Bool
  | [], [] => true
  | (k, a) :: as, (l, b) :: bs => k == l && pvBeq a b && pvBeqFields as bs
  | _, _ => false

end

/-- Python truthiness of a value: `None`, `0`, `""`, `[]` and an empty dict
are falsy; everything else here is truthy. -/
def truthy : PyVal → Bool
  | .pynone => false
  | .pyint n => n != 0
  | .pystr s => s != ""
  | .pybool b => b
  | .pylist vs => !vs.isEmpty
  | .pydict fs => !fs.isEmpty
  | .pyobj _ _ => true
  | .pyenum _ _ => true

/-- Python `dict.get(k)`: first binding of `k` in the association list, if any. -/
def dictGet (d : List (String × PyVal)) (k : String) : Option PyVal :=
  match d.find? (fun p => p.1 == k) with
  | some p => some p.2
  | none => none

/-- Splitting a word into its underscore-separated parts. -/
def splitOnUnderscore : List Char → List (List Char)
  | [] => [[]]
  | c :: cs =>
    if c = '_' then [] :: splitOnUnderscore cs
    else
      match splitOnUnderscore cs with
      | [] => [[c]]
      | w :: ws => (c :: w) :: ws

/-- Upper-casing the first character of a word. -/
def capitalizeChars : List Char → List Char
  | [] => []
  | c :: cs => c.toUpper :: cs

/-- Modelled from the spec: `to_camel_case` from
`strawberry/utils/str_converters.py`, which is imported by
`dict_to_type.py` but is not under src/ — the standard snake_case to
camelCase conversion (first word unchanged, following words capitalized). -/
def toCamelCase (s : String) : String :=
  match splitOnUnderscore s.toList with
  | [] => s
  | w :: ws => String.mk (w ++ (ws.map capitalizeChars).flatten)

mutual

/-- The declared type of a dataclass field as `dict_to_type` inspects it: an
enum class (`isinstance(field.type, enum.EnumMeta)`, with its member
values), a nested dataclass (`is_dataclass(field.type)`), or anything
else. -/
inductive PyType where
  | enumMeta : String → List PyVal → PyType
  | dataclass : ClassDecl → PyType
  | plain : PyType

/-- A dataclass declaration: class name and `__dataclass_fields__` in
declaration order. -/
inductive ClassDecl where
  | mk : String → List PyField → ClassDecl

/-- One entry of `__dataclass_fields__`: attribute name, the optional
`field_name` override, and the declared type. -/
inductive PyField where
  | mk : String → Option String → PyType → PyField

end

/-- Python errors `dict_to_type` can raise. -/
inductive PyErr where
  | valueError : String → PyErr
  | attributeError : PyErr
  | recursionError : PyErr
  deriving DecidableEq

mutual

/-- The function `dict_to_type(dict, cls)` from
src/strawberry/utils/dict_to_type.py:
build the kwargs for every dataclass field from the input dict and call the
constructor.  Fuel bounds the recursion into nested dataclasses. -/
def dictToType : Nat → List (String × PyVal) → ClassDecl → Except PyErr PyVal
  | 0, _, _ => .error .recursionError
  | fuel + 1, d, .mk clsName flds =>
    match buildKwargs fuel d flds with
    | .error e => .error e
    | .ok kwargs => .ok (.pyobj clsName kwargs)

/-- The field loop of `dict_to_type`: for each field, compute the dict key
(`field.field_name` when present and truthy, else `to_camel_case(name)`) and
the kwarg value. -/
def buildKwargs : Nat → List (String × PyVal) → List PyField →
    Except PyErr (List (String × PyVal))
  | 0, _, _ => .error .recursionError
  | _ + 1, _, [] => .ok []
  | fuel + 1, d, .mk name fieldName ftype :: rest =>
    let dictName :=
      match fieldName with
      | some fn => if fn = "" then toCamelCase name else fn
      | none => toCamelCase name
    match fieldKwarg fuel d dictName ftype with
    | .error e => .error e
    | .ok v =>
      match buildKwargs fuel d rest with
      | .error e => .error e
      | .ok rest' => .ok ((name, v) :: rest')

/-- The per-field body of `dict_to_type`: a nested dataclass field recurses
on `dict.get(dict_name, ` `{}` `)`; any other field takes
`dict.get(dict_name)` and, when the declared type is an enum class AND the
raw value is truthy, converts it with `field.type(kwargs[name])` (a
`ValueError` when the value is not an enum member). -/
def fieldKwarg : Nat → List (String × PyVal) → String → PyType →
    Except PyErr PyVal
  | 0, _, _, _ => .error .recursionError
  | fuel + 1, d, dictName, .dataclass cls =>
    match dictGet d dictName with
    | some (.pydict inner) => dictToType fuel inner cls
    | some _ => .error .attributeError
    | none => dictToType fuel [] cls
  | _ + 1, d, dictName, .enumMeta cls vals =>
    let raw := (dictGet d dictName).getD .pynone
    if truthy raw then
      if vals.any (fun v => pvBeq v raw) then .ok (.pyenum cls raw)
      else .error (.valueError cls)
    else .ok raw
  | _ + 1, d, dictName, .plain => .ok ((dictGet d dictName).getD .pynone)

end

/-- Modelled from the spec (§6): the possible-types map of a resolved field
type — for a union, the display names of its alternatives. -/
def possibleNames : TypeExpr → List String
  | .unionOf alts => alts.map displayName
  | t => [displayName t]

/-! ## Registry invariants -/

/-- The registry invariant (spec §3, §4.2 tie-break): two cached entries
either share their structural key or carry distinct synthesized names — no
duplicate GraphQL types with colliding names. -/
def wellFormed (r : Registry) : Prop :=
  ∀ e1 ∈ r, ∀ e2 ∈ r,
    (e1.genericName = e2.genericName ∧ e1.args = e2.args) ∨
      e1.descr.name ≠ e2.descr.name

/-- One resolution step only extends the registry and preserves the
invariant. -/
def RegStep (r r' : Registry) : Prop :=
  (∀ e ∈ r, e ∈ r') ∧ (wellFormed r → wellFormed r')

theorem regStep_rfl (r : Registry) : RegStep r r :=
  ⟨fun _ h => h, fun h => h⟩

theorem regStep_trans {r1 r2 r3 : Registry} (h1 : RegStep r1 r2)
    (h2 : RegStep r2 r3) : RegStep r1 r3 :=
  ⟨fun e he => h2.1 e (h1.1 e he), fun h => h2.2 (h1.2 h)⟩

/-- A successful structural lookup comes from some entry of the registry. -/
theorem lookupReg_mem {r : Registry} {g : String} {as : List TypeExpr}
    {d : ConcreteTypeDescriptor} (h : lookupReg r g as = some d) :
    ∃ e ∈ r, e.genericName = g ∧ e.args = as ∧ e.descr = d := by
  induction r with
  | nil => simp [lookupReg] at h
  | cons e rest ih =>
    by_cases hc : e.genericName = g ∧ e.args = as
    · rw [lookupReg, if_pos hc] at h
      exact ⟨e, List.mem_cons_self e rest, hc.1, hc.2, Option.some.inj h⟩
    · rw [lookupReg, if_neg hc] at h
      obtain ⟨e', he', hp⟩ := ih h
      exact ⟨e', List.mem_cons_of_mem e he', hp⟩

/-- Inserting a freshly synthesized entry whose name collides with no
differently-keyed cached entry preserves the registry invariant. -/
theorem regStep_insert {r : Registry} {g : String} {as : List TypeExpr}
    {d : ConcreteTypeDescriptor}
    (hcond : ∀ e ∈ r, e.descr.name = d.name →
      e.genericName = g ∧ e.args = as) :
    RegStep r (⟨g, as, d⟩ :: r) := by
  constructor
  · exact fun e he => List.mem_cons_of_mem _ he
  · intro hwf e1 he1 e2 he2
    rcases List.mem_cons.1 he1 with h1 | h1 <;>
      rcases List.mem_cons.1 he2 with h2 | h2
    · subst h1; subst h2; exact Or.inl ⟨rfl, rfl⟩
    · subst h1
      by_cases hn : e2.descr.name = d.name
      · obtain ⟨hg, ha⟩ := hcond e2 h2 hn
        exact Or.inl ⟨hg.symm, ha.symm⟩
      · exact Or.inr fun hh => hn (hh ▸ rfl)
    · subst h2
      by_cases hn : e1.descr.name = d.name
      · obtain ⟨hg, ha⟩ := hcond e1 h1 hn
        exact Or.inl ⟨hg, ha⟩
      · exact Or.inr hn
    · exact hwf e1 h1 e2 h2

/-- Every operation of the resolution core only extends the registry and
preserves the registry invariant. -/
theorem regStep_all (fuel : Nat) :
    (∀ env reg b e x reg', resolveExpr fuel env reg b e = .ok (x, reg') →
      RegStep reg reg') ∧
    (∀ env reg b ts xs reg', resolveList fuel env reg b ts = .ok (xs, reg') →
      RegStep reg reg') ∧
    (∀ env reg b fs xs reg', resolveFields fuel env reg b fs = .ok (xs, reg') →
      RegStep reg reg') ∧
    (∀ env reg g as d reg', getOrCreate fuel env reg g as = .ok (d, reg') →
      RegStep reg reg') := by
  induction fuel with
  | zero =>
    refine ⟨?_, ?_, ?_, ?_⟩ <;> intro _ reg _ _ _ reg' h <;>
      simp [resolveExpr, resolveList, resolveFields, getOrCreate] at h
  | succ fuel ih =>
    obtain ⟨ihE, ihL, ihF, ihG⟩ := ih
    have hE : ∀ env reg b e x reg',
        resolveExpr (fuel + 1) env reg b e = .ok (x, reg') → RegStep reg reg' := by
      intro env reg b e x reg' h
      cases e with
      | scalar s =>
        simp [resolveExpr] at h
        exact h.2 ▸ regStep_rfl reg
      | placeholder i =>
        rw [resolveExpr] at h
        split at h
        · simp at h
          exact h.2 ▸ regStep_rfl reg
        · exact absurd h (by simp)
      | listOf t =>
        rw [resolveExpr] at h
        split at h
        · exact absurd h (by simp)
        · rename_i t' reg1 hr
          simp at h
          exact h.2 ▸ ihE env reg b t t' reg1 hr
      | optionalOf t =>
        rw [resolveExpr] at h
        split at h
        · exact absurd h (by simp)
        · rename_i t' reg1 hr
          simp at h
          exact h.2 ▸ ihE env reg b t t' reg1 hr
      | ref n =>
        simp [resolveExpr] at h
        exact h.2 ▸ regStep_rfl reg
      | genericRef n as =>
        rw [resolveExpr] at h
        split at h
        · exact absurd h (by simp)
        · rename_i as' reg1 hr
          split at h
          · exact absurd h (by simp)
          · rename_i g he
            split at h
            · exact absurd h (by simp)
            · rename_i d2 reg2 hg
              simp at h
              exact h.2 ▸ regStep_trans (ihL env reg b as as' reg1 hr)
                (ihG env reg1 g as' d2 reg2 hg)
      | unionOf alts =>
        rw [resolveExpr] at h
        split at h
        · exact absurd h (by simp)
        · rename_i alts' reg1 hr
          split at h
          · simp at h
            exact h.2 ▸ ihL env reg b alts alts' reg1 hr
          · exact absurd h (by simp)
    have hL : ∀ env reg b ts xs reg',
        resolveList (fuel + 1) env reg b ts = .ok (xs, reg') → RegStep reg reg' := by
      intro env reg b ts xs reg' h
      cases ts with
      | nil =>
        simp [resolveList] at h
        exact h.2 ▸ regStep_rfl reg
      | cons t ts =>
        rw [resolveList] at h
        split at h
        · exact absurd h (by simp)
        · rename_i t' reg1 hr
          split at h
          · exact absurd h (by simp)
          · rename_i ts' reg2 hs
            simp at h
            exact h.2 ▸ regStep_trans (ihE env reg b t t' reg1 hr)
              (ihL env reg1 b ts ts' reg2 hs)
    have hF : ∀ env reg b fs xs reg',
        resolveFields (fuel + 1) env reg b fs = .ok (xs, reg') → RegStep reg reg' := by
      intro env reg b fs xs reg' h
      cases fs with
      | nil =>
        simp [resolveFields] at h
        exact h.2 ▸ regStep_rfl reg
      | cons f fs =>
        obtain ⟨n, t⟩ := f
        rw [resolveFields] at h
        split at h
        · exact absurd h (by simp)
        · rename_i t' reg1 hr
          split at h
          · exact absurd h (by simp)
          · rename_i fs' reg2 hs
            simp at h
            exact h.2 ▸ regStep_trans (ihE env reg b t t' reg1 hr)
              (ihF env reg1 b fs fs' reg2 hs)
    have hG : ∀ env reg g as d reg',
        getOrCreate (fuel + 1) env reg g as = .ok (d, reg') → RegStep reg reg' := by
      intro env reg g as d reg' h
      rw [getOrCreate] at h
      split at h
      · rename_i d0 hl
        simp at h
        exact h.2 ▸ regStep_rfl reg
      · rename_i hl
        split at h
        · exact absurd h (by simp)
        · rename_i fs' reg1 hf
          split at h
          · rename_i hcond
            simp at h
            exact h.2 ▸ regStep_trans (ihF env reg as g.fields fs' reg1 hf)
              (regStep_insert hcond)
          · exact absurd h (by simp)
    exact ⟨hE, hL, hF, hG⟩

/-- After a successful `get_or_create`, the resulting registry's structural
lookup of that key returns exactly the returned descriptor (a cache hit
returns the cached entry; a miss inserts the fresh descriptor at its key). -/
theorem getOrCreate_lookup {fuel : Nat} {env : Env} {reg : Registry}
    {g : TypeDescriptor} {as : List TypeExpr} {d : ConcreteTypeDescriptor}
    {reg' : Registry} (h : getOrCreate fuel env reg g as = .ok (d, reg')) :
    lookupReg reg' g.name as = some d := by
  cases fuel with
  | zero => simp [getOrCreate] at h
  | succ fuel =>
    rw [getOrCreate] at h
    split at h
    · rename_i d0 hl
      simp at h
      rw [← h.2, hl, h.1]
    · rename_i hl
      split at h
      · exact absurd h (by simp)
      · rename_i fs' reg1 hf
        split at h
        · rename_i hcond
          simp at h
          rw [← h.2, lookupReg, if_pos ⟨rfl, rfl⟩, h.1]
        · exact absurd h (by simp)

/-- A descriptor created on a registry miss carries the synthesized name. -/
theorem getOrCreate_fresh_name {fuel : Nat} {env : Env} {reg : Registry}
    {g : TypeDescriptor} {as : List TypeExpr} {d : ConcreteTypeDescriptor}
    {reg' : Registry} (hmiss : lookupReg reg g.name as = none)
    (h : getOrCreate fuel env reg g as = .ok (d, reg')) :
    d.name = synthesizeName as g.name := by
  cases fuel with
  | zero => simp [getOrCreate] at h
  | succ fuel =>
    rw [getOrCreate] at h
    split at h
    · rename_i d0 hl
      simp [hmiss] at hl
    · rename_i hl
      split at h
      · exact absurd h (by simp)
      · rename_i fs' reg1 hf
        split at h
        · rename_i hcond
          simp at h
          rw [← h.1]
        · exact absurd h (by simp)

/-! ## Concrete declaration environments from the repository's tests -/

/-- The generic `Edge` of `test_supports_generic_simple_type`: one type parameter,
fields `cursor: strawberry.ID` and `node_field: T`. -/
def edgeSimpleG : TypeDescriptor :=
  ⟨"Edge", 1, [("cursor", .scalar .id), ("node_field", .placeholder 0)]⟩

/-- The concrete descriptor synthesized for `Edge[int]`. -/
def dIntEdge : ConcreteTypeDescriptor :=
  ⟨"IntEdge", [("cursor", .scalar .id), ("node_field", .scalar .int)]⟩

/-- The registry after resolving `Edge[int]`. -/
def regIntEdge : Registry := [⟨"Edge", [.scalar .int], dIntEdge⟩]

/-- The generic `Multiple` of `test_supports_multiple_generic`: two type parameters. -/
def multipleG : TypeDescriptor :=
  ⟨"Multiple", 2, [("a", .placeholder 0), ("b", .placeholder 1)]⟩

/-- The type `User` as declared in several tests. -/
def userT : TypeDescriptor := ⟨"User", 0, [("name", .scalar .str)]⟩

/-- The generic `Edge` of `test_support_nested_generics`: single field `node: T`. -/
def edgeNodeG : TypeDescriptor := ⟨"Edge", 1, [("node", .placeholder 0)]⟩

/-- The generic `Connection` of `test_support_nested_generics`: field `edge: Edge[T]`. -/
def connectionG : TypeDescriptor :=
  ⟨"Connection", 1, [("edge", .genericRef "Edge" [.placeholder 0])]⟩

/-- The generic `EdgeWithCursor` of `test_generated_names`. -/
def edgeWithCursorG : TypeDescriptor :=
  ⟨"EdgeWithCursor", 1, [("cursor", .scalar .id), ("node", .placeholder 0)]⟩

/-- The type `SpecialPerson` of `test_generated_names`. -/
def specialPersonT : TypeDescriptor :=
  ⟨"SpecialPerson", 0, [("name", .scalar .str)]⟩

/-- The generic `ListOfProducts` of federation `test_using_generics`. -/
def listOfProductsG : TypeDescriptor :=
  ⟨"ListOfProducts", 1, [("products", .listOf (.placeholder 0))]⟩

/-- The type `Product` of federation `test_using_generics`. -/
def productT : TypeDescriptor := ⟨"Product", 0, [("upc", .scalar .str)]⟩

/-- The type `Fallback` of `test_supports_generic_in_unions`. -/
def fallbackT : TypeDescriptor := ⟨"Fallback", 0, [("node", .scalar .str)]⟩

/-- The generic `Edge` of `test_supports_generic_in_unions`: fields `cursor` and
`node: T`. -/
def edgeCursorNodeG : TypeDescriptor :=
  ⟨"Edge", 1, [("cursor", .scalar .id), ("node", .placeholder 0)]⟩

/-- The generic `Edge` of `test_supports_optional`: field `node: Optional[T]`. -/
def edgeOptG : TypeDescriptor :=
  ⟨"Edge", 1, [("node", .optionalOf (.placeholder 0))]⟩

/-- The generic `Edge` of `test_supports_lists`: field `nodes: List[T]`. -/
def edgeListG : TypeDescriptor :=
  ⟨"Edge", 1, [("nodes", .listOf (.placeholder 0))]⟩

/-- The registry after resolving `Union[Fallback, Edge[int]]`. -/
def regUnionEdgeInt : Registry :=
  [⟨"Edge", [.scalar .int],
    ⟨"IntEdge", [("cursor", .scalar .id), ("node", .scalar .int)]⟩⟩]

/-! ## Claims -/

/-- C2: for a generic type with a single type parameter instantiated with the
scalar argument `int` (`Edge[int]`), the synthesized concrete GraphQL type
name is `"IntEdge"`, and the `__typename` of a runtime `Edge` value
constructed with argument `int` serializes to `"IntEdge"`. -/
theorem edge_int_synthesizes_IntEdge :
    getOrCreate 10 [edgeSimpleG] [] edgeSimpleG [.scalar .int] =
      .ok (dIntEdge, regIntEdge) ∧
    serialize 10 regIntEdge (.ref "IntEdge")
      (.objV "Edge" [.scalar .int] [("cursor", .scalarV), ("node_field", .scalarV)]) =
      .ok (.objOut "IntEdge") :=
  ⟨rfl, rfl⟩

/-- C3: for a generic type with two type parameters instantiated as
`Multiple[int, str]`, the synthesized concrete type name is
`"IntStrMultiple"` — the argument display names concatenated in declared
parameter order before the generic's own name. -/
theorem multiple_int_str_synthesizes_IntStrMultiple :
    getOrCreate 10 [multipleG] [] multipleG [.scalar .int, .scalar .str] =
      .ok (⟨"IntStrMultiple", [("a", .scalar .int), ("b", .scalar .str)]⟩,
        [⟨"Multiple", [.scalar .int, .scalar .str],
          ⟨"IntStrMultiple", [("a", .scalar .int), ("b", .scalar .str)]⟩⟩]) ∧
    synthesizeName [.scalar .int, .scalar .str] "Multiple" = "IntStrMultiple" :=
  ⟨rfl, rfl⟩

/-- C4: resolving `Connection[User]`, where `Connection` has a field of type
`Edge[T]`, synthesizes the outer name `"UserConnection"` (not re-embedding
"Edge") and gives the inner `edge` field the concrete type `"UserEdge"`,
which is cached in the registry under key (`Edge`, `[User]`). -/
theorem nested_generic_connection_user :
    getOrCreate 10 [userT, edgeNodeG, connectionG] [] connectionG [.ref "User"] =
      .ok (⟨"UserConnection", [("edge", .ref "UserEdge")]⟩,
        [⟨"Connection", [.ref "User"],
           ⟨"UserConnection", [("edge", .ref "UserEdge")]⟩⟩,
         ⟨"Edge", [.ref "User"], ⟨"UserEdge", [("node", .ref "User")]⟩⟩]) :=
  rfl

/-- C5: the Name Synthesizer concatenates, in declared type-parameter order,
each concrete argument's capitalized display name (scalars mapped to their
canonical GraphQL scalar names) followed by the generic type's own name: any
descriptor freshly created by `get_or_create` is named by that formula, and
in particular `EdgeWithCursor[SpecialPerson]` yields
`"SpecialPersonEdgeWithCursor"` and `ListOfProducts[Product]` yields
`"ProductListOfProducts"`. -/
theorem name_synthesizer_concatenates_display_names :
    (∀ (fuel : Nat) (env : Env) (reg : Registry) (g : TypeDescriptor)
        (as : List TypeExpr) (d : ConcreteTypeDescriptor) (reg' : Registry),
      lookupReg reg g.name as = none →
      getOrCreate fuel env reg g as = .ok (d, reg') →
      d.name = String.join (as.map displayName) ++ g.name) ∧
    scalarName .int = "Int" ∧
    (getOrCreate 10 [edgeWithCursorG, specialPersonT] [] edgeWithCursorG
        [.ref "SpecialPerson"]).map (fun p => p.1.name) =
      .ok "SpecialPersonEdgeWithCursor" ∧
    (getOrCreate 10 [listOfProductsG, productT] [] listOfProductsG
        [.ref "Product"]).map (fun p => p.1.name) =
      .ok "ProductListOfProducts" := by
  refine ⟨?_, rfl, rfl, rfl⟩
  intro fuel env reg g as d reg' hmiss h
  exact getOrCreate_fresh_name hmiss h

/-- C5 witness: the general clause applied to the concrete
`ListOfProducts[Product]` instantiation. -/
theorem name_synthesizer_concatenates_display_names_witness :
    (⟨"ProductListOfProducts", [("products", .listOf (.ref "Product"))]⟩ :
        ConcreteTypeDescriptor).name =
      String.join ([TypeExpr.ref "Product"].map displayName) ++ "ListOfProducts" :=
  name_synthesizer_concatenates_display_names.1 10 [listOfProductsG, productT]
    [] listOfProductsG [.ref "Product"]
    ⟨"ProductListOfProducts", [("products", .listOf (.ref "Product"))]⟩
    [⟨"ListOfProducts", [.ref "Product"],
      ⟨"ProductListOfProducts", [("products", .listOf (.ref "Product"))]⟩⟩]
    rfl rfl

/-- C6: resolving `Union[Fallback, Edge[int]]` produces the possible types
`["Fallback", "IntEdge"]`, and a runtime `Edge` value constructed with
argument `int` is classified as the `"IntEdge"` member, so its `__typename`
serializes to `"IntEdge"`. -/
theorem generic_in_union_fallback_int_edge :
    resolveExpr 10 [fallbackT, edgeCursorNodeG] [] []
        (.unionOf [.ref "Fallback", .genericRef "Edge" [.scalar .int]]) =
      .ok (.unionOf [.ref "Fallback", .ref "IntEdge"], regUnionEdgeInt) ∧
    possibleNames (.unionOf [.ref "Fallback", .ref "IntEdge"]) =
      ["Fallback", "IntEdge"] ∧
    classify regUnionEdgeInt ["Fallback", "IntEdge"]
        (.objV "Edge" [.scalar .int] [("cursor", .scalarV), ("node", .scalarV)]) =
      .ok "IntEdge" ∧
    serialize 10 regUnionEdgeInt (.unionOf [.ref "Fallback", .ref "IntEdge"])
        (.objV "Edge" [.scalar .int] [("cursor", .scalarV), ("node", .scalarV)]) =
      .ok (.objOut "IntEdge") :=
  ⟨rfl, rfl, rfl, rfl⟩

/-- C7: list and optional wrappers on a generic type's fields do not affect
name synthesis: a fresh instantiation's name depends only on the generic's
name and the argument tuple, never on its fields, and concretely `Edge[User]`
with field `Optional[T]` or `List[T]` still synthesizes `"UserEdge"`, only
the field's own wrapper differing. -/
theorem wrappers_transparent_to_naming :
    (∀ (fuel1 fuel2 : Nat) (env1 env2 : Env) (reg1 reg2 : Registry)
        (g1 g2 : TypeDescriptor) (as : List TypeExpr)
        (d1 d2 : ConcreteTypeDescriptor) (r1 r2 : Registry),
      g1.name = g2.name →
      lookupReg reg1 g1.name as = none →
      lookupReg reg2 g2.name as = none →
      getOrCreate fuel1 env1 reg1 g1 as = .ok (d1, r1) →
      getOrCreate fuel2 env2 reg2 g2 as = .ok (d2, r2) →
      d1.name = d2.name) ∧
    getOrCreate 10 [userT, edgeOptG] [] edgeOptG [.ref "User"] =
      .ok (⟨"UserEdge", [("node", .optionalOf (.ref "User"))]⟩,
        [⟨"Edge", [.ref "User"],
          ⟨"UserEdge", [("node", .optionalOf (.ref "User"))]⟩⟩]) ∧
    getOrCreate 10 [userT, edgeListG] [] edgeListG [.ref "User"] =
      .ok (⟨"UserEdge", [("nodes", .listOf (.ref "User"))]⟩,
        [⟨"Edge", [.ref "User"],
          ⟨"UserEdge", [("nodes", .listOf (.ref "User"))]⟩⟩]) := by
  refine ⟨?_, rfl, rfl⟩
  intro fuel1 fuel2 env1 env2 reg1 reg2 g1 g2 as d1 d2 r1 r2 hn hm1 hm2 h1 h2
  rw [getOrCreate_fresh_name hm1 h1, getOrCreate_fresh_name hm2 h2,
    synthesizeName, synthesizeName, hn]

/-- C7 witness: the general clause applied to the two concrete `Edge[User]`
declarations (field `Optional[T]` vs field `List[T]`): both names are
`"UserEdge"`. -/
theorem wrappers_transparent_to_naming_witness :
    (⟨"UserEdge", [("node", .optionalOf (.ref "User"))]⟩ :
        ConcreteTypeDescriptor).name =
      (⟨"UserEdge", [("nodes", .listOf (.ref "User"))]⟩ :
        ConcreteTypeDescriptor).name :=
  wrappers_transparent_to_naming.1 10 10 [userT, edgeOptG] [userT, edgeListG]
    [] [] edgeOptG edgeListG [.ref "User"]
    ⟨"UserEdge", [("node", .optionalOf (.ref "User"))]⟩
    ⟨"UserEdge", [("nodes", .listOf (.ref "User"))]⟩
    [⟨"Edge", [.ref "User"], ⟨"UserEdge", [("node", .optionalOf (.ref "User"))]⟩⟩]
    [⟨"Edge", [.ref "User"], ⟨"UserEdge", [("nodes", .listOf (.ref "User"))]⟩⟩]
    rfl rfl rfl rfl rfl

/-- C8: serializing an empty list at a list-of-union type resolved from a
generic returns an empty output sequence with no error — no element-level
union classification is attempted, so no spurious `NoMatchingUnionMember`
is raised, whatever the union's alternatives and the registry. -/
theorem empty_list_serializes_without_classification
    (fuel : Nat) (reg : Registry) (alts : List TypeExpr) :
    serialize (fuel + 2) reg (.listOf (.unionOf alts)) (.listV []) =
      .ok (.listOut []) :=
  rfl

/-- C1: `get_or_create` is memoized — repeating a call with the same
argument tuple returns the identical cached descriptor and leaves the
registry unchanged — and, starting from a well-formed registry, a call with
a structurally different argument tuple returns a distinct descriptor with a
distinct synthesized name (when it does not error with the declared
name-collision error); hence one single concrete descriptor per
(generic, arguments) pair across the schema build. -/
theorem registry_memoizes_and_separates_instantiations
    (fuel : Nat) (env : Env) (reg : Registry) (g : TypeDescriptor)
    (A B : List TypeExpr) (dA : ConcreteTypeDescriptor) (regA : Registry)
    (hwf : wellFormed reg)
    (hA : getOrCreate fuel env reg g A = .ok (dA, regA)) :
    getOrCreate fuel env regA g A = .ok (dA, regA) ∧
    ∀ dB regB, A ≠ B → getOrCreate fuel env regA g B = .ok (dB, regB) →
      dB.name ≠ dA.name ∧ dB ≠ dA := by
  cases fuel with
  | zero => simp [getOrCreate] at hA
  | succ fuel =>
    constructor
    · rw [getOrCreate, getOrCreate_lookup hA]
    · intro dB regB hne hB
      have hwfA : wellFormed regA :=
        ((regStep_all (fuel + 1)).2.2.2 env reg g A dA regA hA).2 hwf
      obtain ⟨eA, heA, hgA, haA, hdA⟩ := lookupReg_mem (getOrCreate_lookup hA)
      rw [getOrCreate] at hB
      split at hB
      · rename_i d0 hl
        simp at hB
        obtain ⟨h1, h2⟩ := hB
        obtain ⟨eB, heB, hgB, haB, hdB⟩ := lookupReg_mem hl
        rcases hwfA eA heA eB heB with hk | hn
        · exact absurd ((haA.symm.trans hk.2).trans haB) hne
        · have hname : dB.name ≠ dA.name := by
            intro he
            apply hn
            rw [hdA, hdB, h1]
            exact he.symm
          exact ⟨hname, fun he => hname (congrArg ConcreteTypeDescriptor.name he)⟩
      · rename_i hl
        split at hB
        · exact absurd hB (by simp)
        · rename_i fs' reg2 hf
          split at hB
          · rename_i hcond
            simp at hB
            obtain ⟨h1, h2⟩ := hB
            have hmemA : eA ∈ reg2 :=
              ((regStep_all fuel).2.2.1 env regA B g.fields fs' reg2 hf).1 eA heA
            have hnme : eA.descr.name ≠ synthesizeName B g.name :=
              fun hh => hne (haA.symm.trans (hcond eA hmemA hh).2)
            have hdBname : dB.name = synthesizeName B g.name := by rw [← h1]
            have hname : dB.name ≠ dA.name := by
              rw [hdBname, ← hdA]
              exact fun hh => hnme hh.symm
            exact ⟨hname, fun he => hname (congrArg ConcreteTypeDescriptor.name he)⟩
          · exact absurd hB (by simp)

/-- C1 witness: starting from the empty registry, resolving `Edge[int]` and
then `Edge[int]` again returns the same cached `IntEdge` descriptor with the
registry unchanged, and a subsequent `Edge[str]` resolution can only return
a descriptor with a different name. -/
theorem registry_memoizes_and_separates_instantiations_witness :
    getOrCreate 10 [edgeSimpleG] regIntEdge edgeSimpleG [.scalar .int] =
      .ok (dIntEdge, regIntEdge) ∧
    ∀ dB regB, [TypeExpr.scalar .int] ≠ [TypeExpr.scalar .str] →
      getOrCreate 10 [edgeSimpleG] regIntEdge edgeSimpleG [.scalar .str] =
        .ok (dB, regB) →
      dB.name ≠ dIntEdge.name ∧ dB ≠ dIntEdge :=
  registry_memoizes_and_separates_instantiations 10 [edgeSimpleG] []
    edgeSimpleG [.scalar .int] [.scalar .str] dIntEdge regIntEdge
    (fun e he => absurd he (List.not_mem_nil e)) rfl

/-- C9: a runtime value whose originating generic identity and recorded
arguments match no cached instantiation is classified with a
`NoMatchingUnionMember` error identifying the unmatched generic and its
arguments, and each field's execution outcome depends only on that field's
own type and value, so the failure is confined to that field and does not
invalidate other fields. -/
theorem unmatched_value_is_field_level_error :
    (∀ (reg : Registry) (cands : List String) (g : String)
        (as : List TypeExpr) (fs : List (String × RVal)),
      lookupReg reg g as = none →
      classify reg cands (.objV g as fs) =
        .error (.noMatchingUnionMember g as)) ∧
    (∀ (fuel : Nat) (reg : Registry) (flds : List (TypeExpr × RVal)) (i : Nat),
      (executeFields fuel reg flds)[i]? =
        (flds[i]?).map (fun p => serialize fuel reg p.1 p.2)) := by
  constructor
  · intro reg cands g as fs hmiss
    simp [classify, hmiss]
  · intro fuel reg flds i
    simp [executeFields]

/-- The registry after resolving `Union[User, Edge[User]]` of
`test_raises_error_when_unable_to_find_type`. -/
def regUserEdge : Registry :=
  [⟨"Edge", [.ref "User"], ⟨"UserEdge", [("nodes", .listOf (.ref "User"))]⟩⟩]

/-- C9 witness: a runtime `Edge` value carrying argument `str` (the test's
`Edge(nodes=\["bad example"\])`) matches no cached instantiation — only
(`Edge`, `[User]`) is registered — and classification reports the unmatched
generic `Edge` with arguments `(str,)`. -/
theorem unmatched_value_is_field_level_error_witness :
    classify regUserEdge ["User", "UserEdge"] (.objV "Edge" [.scalar .str] []) =
      .error (.noMatchingUnionMember "Edge" [.scalar .str]) :=
  unmatched_value_is_field_level_error.1 regUserEdge ["User", "UserEdge"]
    "Edge" [.scalar .str] [] rfl

/-- C10: in `dict_to_type`, a dataclass field whose declared type is an enum
converts the raw dict value to an enum instance only when that value is
truthy; a falsy raw value (`None` from a missing key, `0`, or `""`) is
passed through to the constructor unconverted, never raising from the enum
lookup. -/
theorem dict_to_type_enum_converted_only_when_truthy :
    (∀ (d : List (String × PyVal)) (dictName cls : String)
        (vals : List PyVal) (fuel : Nat),
      truthy ((dictGet d dictName).getD .pynone) = false →
      fieldKwarg (fuel + 1) d dictName (.enumMeta cls vals) =
        .ok ((dictGet d dictName).getD .pynone)) ∧
    (∀ (d : List (String × PyVal)) (dictName cls : String)
        (vals : List PyVal) (fuel : Nat),
      truthy ((dictGet d dictName).getD .pynone) = true →
      vals.any (fun v => pvBeq v ((dictGet d dictName).getD .pynone)) = true →
      fieldKwarg (fuel + 1) d dictName (.enumMeta cls vals) =
        .ok (.pyenum cls ((dictGet d dictName).getD .pynone))) ∧
    (∀ (fuel : Nat) (d : List (String × PyVal)) (clsName fname ecls : String)
        (vals : List PyVal),
      truthy ((dictGet d (toCamelCase fname)).getD .pynone) = false →
      dictToType (fuel + 3) d (.mk clsName [.mk fname none (.enumMeta ecls vals)]) =
        .ok (.pyobj clsName
          [(fname, (dictGet d (toCamelCase fname)).getD .pynone)])) := by
  refine ⟨?_, ?_, ?_⟩
  · intro d dictName cls vals fuel h
    simp [fieldKwarg, h]
  · intro d dictName cls vals fuel h1 h2
    simp [fieldKwarg, h1, h2]
  · intro fuel d clsName fname ecls vals h
    simp [dictToType, buildKwargs, fieldKwarg, h]

/-- C10 witness: a present but falsy raw value (`0`) for an enum-typed field
whose value is not an enum member is passed through unconverted and raises
nothing. -/
theorem dict_to_type_enum_converted_only_when_truthy_witness :
    truthy ((dictGet [("favoriteColor", .pyint 0)]
        (toCamelCase "favorite_color")).getD .pynone) = false ∧
    dictToType 3 [("favoriteColor", .pyint 0)]
        (.mk "Settings" [.mk "favorite_color" none
          (.enumMeta "Color" [.pystr "red"])]) =
      .ok (.pyobj "Settings" [("favorite_color",
        (dictGet [("favoriteColor", .pyint 0)]
          (toCamelCase "favorite_color")).getD .pynone)]) :=
  ⟨rfl, dict_to_type_enum_converted_only_when_truthy.2.2 0
    [("favoriteColor", .pyint 0)] "Settings" "favorite_color" "Color"
    [.pystr "red"] rfl⟩

end Strawberry
